import Mathlib

/-!
A verification development for the yolact export / sparsification glue code.

The repository consists of three Python files:
  * `export.py` — an `ExportArgs` dataclass (checkpoint validation, save-dir
    creation, collision-free output-name computation), an argparse-based CLI,
    and an `export` routine that applies a recipe, loads weights and exports
    the model to ONNX;
  * `utils/sparse.py` — `SparseMLWrapper`, conditional delegation of
    training-loop lifecycle events to an external `ScheduledModifierManager`;
  * `utils/wrapper.py` — `DeepsparseWrapper`, gluing a compiled inference
    engine to the detection post-processing routine.

The development shallowly embeds this code.  Python `pathlib.Path` values are
modelled as lists of path components (`PyPath`); the file system is a finite
record of existing file paths and directory paths (`FS`).  Python integer
formatting (`str(n)` inside an f-string) is modelled by `natStr`, decimal
digits most significant first.  External library objects (the sparsification
manager, the compiled engine, loggers) are modelled as records of abstract
response functions, and the side effects performed on them are captured as
explicit event traces.
-/

namespace Yolact

/-! ### Decimal rendering of naturals (Python `str(n)` / f-string formatting) -/

/-- Decimal digit characters of `n`, most significant first, as produced by
Python string formatting of a nonnegative integer. -/
def natStrAux (n : Nat) : List Char :=
  if n = 0 then ['0'] else ((Nat.digits 10 n).reverse.map Nat.digitChar)

/-- Python decimal rendering of a natural number. -/
def natStr (n : Nat) : String := ⟨natStrAux n⟩

/-! ### The `pathlib.Path` model

A `PyPath` is the list of components of a POSIX path (what pathlib calls
`parts`, ignoring the root marker). -/

/-- A Python `pathlib.Path`, as its list of components. -/
abbrev PyPath := List String

/-- Split a character list at every `'/'` (Python `str.split('/')`): the
resulting chunks, in order, separators dropped, empty chunks kept. -/
def splitSlash : List Char → List (List Char)
  | [] => [[]]
  | c :: rest =>
    if c = '/' then [] :: splitSlash rest
    else
      match splitSlash rest with
      | [] => [[c]]
      | h :: t => (c :: h) :: t

/-- `Path(s)` for a raw string `s`: split on the separator and drop empty and
`"."` components, as pathlib's normalization does. -/
def pathOfString (s : String) : PyPath :=
  ((splitSlash s.data).map (fun l => (⟨l⟩ : String))).filter (fun c => c ≠ "" ∧ c ≠ ".")

/-- `Path.name`: the final component (the empty string for an empty path). -/
def PyPath.nameC (p : PyPath) : String := p.getLast?.getD ""

/-- `str(path)`: components joined by the separator. -/
def PyPath.render (p : PyPath) : String := String.intercalate "/" p

/-- Index of the last `'.'` in a character list, if any (Python `str.rfind`). -/
def rfindDot : List Char → Option Nat
  | [] => none
  | c :: cs =>
    match rfindDot cs with
    | some i => some (i + 1)
    | none => if c = '.' then some 0 else none

/-- `Path.stem` on a single component: pathlib drops the substring from the
last dot onwards, provided that dot is neither the leading character nor the
final one. -/
def stemOf (s : String) : String :=
  let cs := s.data
  match rfindDot cs with
  | some i => if 0 < i ∧ i < cs.length - 1 then ⟨cs.take i⟩ else s
  | none => s

/-- `Path.with_suffix(suffix)` on a single component: the stem followed by the
new suffix. -/
def withSuffix (s suffix : String) : String := stemOf s ++ suffix

/-! ### The file-system model -/

/-- The file system visible to the script: the existing regular-file paths and
the existing directory paths. -/
structure FS where
  files : List PyPath
  dirs : List PyPath
deriving DecidableEq

/-- `Path.exists()`: the path names an existing file or directory. -/
def FS.existsPath (fs : FS) (p : PyPath) : Bool := p ∈ fs.files || p ∈ fs.dirs

/-- The nonempty prefixes of a path: the path itself and all its ancestors. -/
def parentsOf (p : PyPath) : List PyPath :=
  (List.range p.length).map (fun i => p.take (i + 1))

/-- `path.mkdir(parents=True, exist_ok=True)`: afterwards the directory and
every ancestor exist; the call never fails. -/
def FS.mkdirParents (fs : FS) (p : PyPath) : FS :=
  { fs with dirs := parentsOf p ++ fs.dirs }

/-! ### `ExportArgs` (`export.py`) -/

/-- The candidate output file names tried by `ExportArgs.get_safe_name`:
`f"{filename}.onnx"` first, then `f"{filename}-{k}.onnx"` for `k = 1, 2, …`. -/
def candidateName (filename : String) : Nat → String
  | 0 => filename ++ ".onnx"
  | k + 1 => filename ++ "-" ++ natStr (k + 1) ++ ".onnx"

/-- The candidate output path for suffix counter `k`: `save_dir / candidate`. -/
def pathFor (dir : PyPath) (filename : String) (k : Nat) : PyPath :=
  dir ++ [candidateName filename k]

/-- The `while self.name.exists()` loop of `get_safe_name`, with explicit
fuel.  `postInit` runs it with fuel exceeding the number of file-system
entries, which suffices for the loop to find a free name (`safeLoop_spec`). -/
def safeLoop (fs : FS) (dir : PyPath) (filename : String) : Nat → Nat → PyPath
  | 0, k => pathFor dir filename k
  | fuel + 1, k =>
    if fs.existsPath (pathFor dir filename k) then
      safeLoop fs dir filename fuel (k + 1)
    else pathFor dir filename k

/-- Python truthiness of an optional string (`None` and `""` are falsy). -/
def truthyOpt (s : Option String) : Bool := s.getD "" ≠ ""

/-- The `filename` local of `get_safe_name`: the stem of `Path(self.name)`
when `self.name` is truthy, otherwise the stem of
`Path(self.checkpoint.with_suffix(".onnx").name)`. -/
def chosenStem (checkpoint : PyPath) (name : Option String) : String :=
  if truthyOpt name then
    stemOf (PyPath.nameC (pathOfString (name.getD "")))
  else
    stemOf (PyPath.nameC (pathOfString (withSuffix (PyPath.nameC checkpoint) ".onnx")))

/-- `ExportArgs.get_safe_name`: the first candidate output path in `save_dir`
(counting `filename.onnx`, `filename-1.onnx`, `filename-2.onnx`, …) that does
not exist on the file system. -/
def getSafeName (fs : FS) (save_dir checkpoint : PyPath) (name : Option String) : PyPath :=
  safeLoop fs save_dir (chosenStem checkpoint name)
    (fs.files.length + fs.dirs.length + 1) 0

/-- The raw constructor arguments of the `ExportArgs` dataclass, before
`__post_init__` runs (paths still strings, `name` still optional). -/
structure ExportArgs where
  checkpoint : String
  config : String
  recipe : Option String
  no_qat : Bool
  batch_size : Int
  image_shape : List Int
  save_dir : String
  name : Option String
deriving DecidableEq

/-- The errors raised explicitly by `export.py` itself: only the
`FileNotFoundError` of `ExportArgs.__post_init__`. -/
inductive PyError where
  | fileNotFound (msg : String)
deriving DecidableEq

/-- The `ExportArgs` dataclass after `__post_init__`: paths converted, the
save directory created, and `name` resolved to a collision-free output path. -/
structure InitArgs where
  checkpoint : PyPath
  config : String
  recipe : Option String
  no_qat : Bool
  batch_size : Int
  image_shape : List Int
  save_dir : PyPath
  name : PyPath
deriving DecidableEq

/-- `ExportArgs.__post_init__`: raise `FileNotFoundError` when the checkpoint
does not exist; otherwise create the save directory (with parents, tolerating
an existing one) and compute the safe output name. -/
def ExportArgs.postInit (a : ExportArgs) (fs : FS) : Except PyError (InitArgs × FS) :=
  let checkpoint := pathOfString a.checkpoint
  if fs.existsPath checkpoint = false then
    .error (.fileNotFound
      ("The checkpoint " ++ PyPath.render checkpoint ++ " does not exist."))
  else
    let save_dir := pathOfString a.save_dir
    let fs' := fs.mkdirParents save_dir
    let nm := getSafeName fs' save_dir checkpoint a.name
    .ok (⟨checkpoint, a.config, a.recipe, a.no_qat, a.batch_size,
      a.image_shape, save_dir, nm⟩, fs')

/-! ### The command-line parser (`parse_args` in `export.py`)

`argparse` itself is an external library; the embedding records the parser
configuration built by the `add_argument` calls of the source and gives the
standard semantics: a typed value per provided flag, defaults for absent
optional flags, failure on a missing required flag or an unknown flag.  Value
conversion (`type=int`, `nargs="+"`) is argparse's, so values arrive typed. -/

/-- A typed command-line value after argparse conversion. -/
inductive CliVal where
  | vstr (s : String)
  | vint (n : Int)
  | vints (l : List Int)
  | vflag
deriving DecidableEq

/-- One `add_argument` registration: long flag, optional short flag, whether
the argument is required. -/
structure ArgSpec where
  flag : String
  short : Option String
  required : Bool
deriving DecidableEq

/-- The eight `parser.add_argument` calls of `export.py`, in source order. -/
def exportParserSpecs : List ArgSpec :=
  [⟨"--checkpoint", none, true⟩,
   ⟨"--config", some "-c", false⟩,
   ⟨"--recipe", some "-r", false⟩,
   ⟨"--no-qat", some "-N", false⟩,
   ⟨"--batch-size", some "-b", false⟩,
   ⟨"--image-shape", some "-S", false⟩,
   ⟨"--save-dir", some "-s", false⟩,
   ⟨"--name", some "-n", false⟩]

/-- The value provided for a long flag on the command line, if any. -/
def lookupArg (provided : List (String × CliVal)) (flag : String) : Option CliVal :=
  (provided.find? (fun p => p.1 = flag)).map (fun p => p.2)

/-- Extract a string value, falling back to a default. -/
def asStr (v : Option CliVal) (d : String) : String :=
  match v with
  | some (.vstr s) => s
  | _ => d

/-- Extract an optional string value (`default=None` flags). -/
def asOptStr (v : Option CliVal) : Option String :=
  match v with
  | some (.vstr s) => some s
  | _ => none

/-- Extract an integer value, falling back to a default. -/
def asInt (v : Option CliVal) (d : Int) : Int :=
  match v with
  | some (.vint n) => n
  | _ => d

/-- Extract an integer-list value, falling back to a default. -/
def asInts (v : Option CliVal) (d : List Int) : List Int :=
  match v with
  | some (.vints l) => l
  | _ => d

/-- `parse_args`: fail on a missing required flag or an unrecognized flag,
otherwise build `ExportArgs` from the provided values and the declared
defaults of the source (`yolact_base_config`, no recipe, QAT conversion on,
batch size 1, image shape `(3, 550, 550)`, save dir `./exported_models`,
no name). -/
def parse_args (provided : List (String × CliVal)) : Except String ExportArgs :=
  if (exportParserSpecs.filter (fun s => s.required)).any
      (fun s => (lookupArg provided s.flag).isNone) then
    .error "the following arguments are required"
  else if provided.any
      (fun p => exportParserSpecs.all (fun s => s.flag ≠ p.1)) then
    .error "unrecognized arguments"
  else
    .ok
      { checkpoint := asStr (lookupArg provided "--checkpoint") ""
        config := asStr (lookupArg provided "--config") "yolact_base_config"
        recipe := asOptStr (lookupArg provided "--recipe")
        no_qat := (lookupArg provided "--no-qat").isSome
        batch_size := asInt (lookupArg provided "--batch-size") 1
        image_shape := asInts (lookupArg provided "--image-shape") [3, 550, 550]
        save_dir := asStr (lookupArg provided "--save-dir") "./exported_models"
        name := asOptStr (lookupArg provided "--name") }

/-! ### The `export` function (`export.py`)

`export` only orchestrates library calls; the embedding records those calls,
with their arguments, as an event trace in source order. -/

/-- The calls performed by `export`, in the order the source makes them. -/
inductive ExportEvent where
  | setCfg (config : String)
  | constructModel
  | managerFromYaml (recipe : String)
  | applyRecipe (recipe : String)
  | torchLoad (checkpoint : PyPath)
  | loadWeights (checkpoint : PyPath)
  | randn (shape : List Int)
  | exportOnnx (sampleShape : List Int) (filePath : String) (convertQat : Bool)
deriving DecidableEq

/-- The trace of calls made by `export(args)`, translated line by line:
compute the batch shape, set the config, construct the model, build and apply
the manager when a recipe is given, load the checkpoint into the model, and
export to ONNX on a random sample batch. -/
def exportTrace (a : InitArgs) : List ExportEvent :=
  let batch_shape := a.batch_size :: a.image_shape
  [ExportEvent.setCfg a.config, ExportEvent.constructModel]
  ++ (match a.recipe with
      | some r => [ExportEvent.managerFromYaml r, ExportEvent.applyRecipe r]
      | none => [])
  ++ [ExportEvent.torchLoad a.checkpoint,
      ExportEvent.loadWeights a.checkpoint,
      ExportEvent.randn batch_shape,
      ExportEvent.exportOnnx batch_shape (PyPath.render a.name) (!a.no_qat)]

/-- The three library calls the specification singles out on the export path:
recipe application, weight loading, ONNX export. -/
def isMainLibCall : ExportEvent → Bool
  | .applyRecipe _ => true
  | .loadWeights _ => true
  | .exportOnnx _ _ _ => true
  | _ => false

/-! ### `DeepsparseWrapper` (`utils/wrapper.py`) -/

/-- The events of a single `DeepsparseWrapper.__call__`:
`inputs.cpu().numpy()`, `engine.mapped_run([batch])`, and the final
`self.detect(outs, self)` on the rebuilt dictionary. -/
inductive InferEvent (Arr Tensor : Type) where
  | toNumpy
  | mappedRun (args : List Arr)
  | detectCall (outs : List (String × Tensor))

/-- The compiled-engine wrapper.  The engine's `mapped_run` is modelled as the
ordered list of values of the dictionary it returns; `cpu_numpy` is tensor →
array conversion and `from_numpy` its inverse direction; `detect` is the
external detection routine applied to the rebuilt name → tensor dictionary. -/
structure DeepsparseWrapper (Arr Tensor Res : Type) where
  engine_mapped_run : List Arr → List Arr
  cpu_numpy : Tensor → Arr
  from_numpy : Arr → Tensor
  detect : List (String × Tensor) → Res

/-- `DeepsparseWrapper.__call__`, line by line: convert the input batch to a
numpy array, run the engine on the one-element argument list, zip the output
values with the five output names, and forward the dictionary to `detect`.
The returned trace records the calls in order. -/
def DeepsparseWrapper.call {Arr Tensor Res : Type}
    (w : DeepsparseWrapper Arr Tensor Res) (inputs : Tensor) :
    Res × List (InferEvent Arr Tensor) :=
  let batch := w.cpu_numpy inputs
  let outs := w.engine_mapped_run [batch]
  let keys := ["loc", "conf", "mask", "priors", "proto"]
  let outsD := List.zip keys (outs.map w.from_numpy)
  (w.detect outsD,
   [InferEvent.toNumpy, InferEvent.mappedRun [batch], InferEvent.detectCall outsD])

/-! ### `SparseMLWrapper` (`utils/sparse.py`)

The `ScheduledModifierManager` is an external library object; the embedding
models it as a record of its queried attributes (its modifier lists, its
`max_epochs`, its string rendering) together with the response function of its
`modify` method.  The side effects the wrapper performs on the manager and on
the logger are captured as an explicit event trace; a method that performs no
manager call returns an empty trace.  The `is_parallel` unwrapping of the
constructor is torch introspection and is modelled as receiving the already
unwrapped model. -/

/-- A pruning/quantization/LR/epoch modifier of a recipe, with its (possibly
fractional) epoch range. -/
structure Modifier where
  start_epoch : ℚ
  end_epoch : ℚ
deriving DecidableEq

/-- The externally supplied `ScheduledModifierManager`, as the attributes the
wrapper reads and the response of its `modify` method. -/
structure Manager (Model Optim Scaler : Type) where
  managerStr : String
  quantization_modifiers : List Modifier
  pruning_modifiers : List Modifier
  learning_rate_modifiers : List Modifier
  epoch_modifiers : List Modifier
  max_epochs : Int
  modifyRes : Model → Optim → Nat → Scaler → Scaler

/-- The manager and logger calls a `SparseMLWrapper` method can perform. -/
inductive MEvent (Model Optim Scaler : Type) where
  | applyCall (model : Model)
  | initCall (model : Model) (start_epoch : Int)
  | initLoggersCall
  | modifyCall (model : Model) (optim : Optim) (steps_per_epoch : Nat) (wrap_optim : Scaler)
  | logInfo (msg : String)

/-- The `SparseMLWrapper` state: `enabled = bool(recipe)`, the wrapped model,
the recipe, the manager (present exactly when enabled), and the logger set by
`initialize_loggers`. -/
structure SparseMLWrapper (Model Optim Scaler Logger : Type) where
  enabled : Bool
  model : Model
  recipe : Option String
  manager : Option (Manager Model Optim Scaler)
  logger : Option Logger

/-- `SparseMLWrapper.__init__`: enable on a truthy recipe and build the
manager from the recipe YAML only in that case (`fromYaml` is the external
`ScheduledModifierManager.from_yaml`). -/
def SparseMLWrapper.build {Model Optim Scaler Logger : Type} (model : Model)
    (recipe : Option String) (fromYaml : String → Manager Model Optim Scaler) :
    SparseMLWrapper Model Optim Scaler Logger :=
  let enabled := truthyOpt recipe
  { enabled := enabled
    model := model
    recipe := recipe
    manager := if enabled then some (fromYaml (recipe.getD "")) else none
    logger := none }

/-- `state_dict`: the value stored under the `'recipe'` key —
`str(self.manager)` when enabled, `None` otherwise. -/
def SparseMLWrapper.state_dict {Model Optim Scaler Logger : Type}
    (w : SparseMLWrapper Model Optim Scaler Logger) : Option String :=
  if w.enabled then w.manager.map Manager.managerStr else none

/-- `apply`: `self.manager.apply(self.model)` when enabled, otherwise
nothing. -/
def SparseMLWrapper.apply {Model Optim Scaler Logger : Type}
    (w : SparseMLWrapper Model Optim Scaler Logger) :
    SparseMLWrapper Model Optim Scaler Logger × List (MEvent Model Optim Scaler) :=
  if w.enabled then (w, [MEvent.applyCall w.model]) else (w, [])

/-- The `initialize` method: `self.manager.initialize(self.model, start_epoch)`
when enabled, otherwise nothing. -/
def SparseMLWrapper.initEpoch {Model Optim Scaler Logger : Type}
    (w : SparseMLWrapper Model Optim Scaler Logger) (start_epoch : Int) :
    SparseMLWrapper Model Optim Scaler Logger × List (MEvent Model Optim Scaler) :=
  if w.enabled then (w, [MEvent.initCall w.model start_epoch]) else (w, [])

/-- The `initialize_loggers` method: unconditionally store the logger on the
wrapper, then, when enabled and the rank is -1 or 0, register a
sparsification group logger with the manager (the inner wandb artifact logging
is external and not traced). -/
def SparseMLWrapper.initLoggers {Model Optim Scaler Logger TB W : Type}
    (w : SparseMLWrapper Model Optim Scaler Logger) (logger : Logger)
    (_tb_writer : TB) (_wandb_logger : W) (rank : Int) :
    SparseMLWrapper Model Optim Scaler Logger × List (MEvent Model Optim Scaler) :=
  let w' := { w with logger := some logger }
  if w.enabled && (rank == -1 || rank == 0) then
    (w', [MEvent.initLoggersCall])
  else (w', [])

/-- `modify`: when enabled, return the result of the single
`self.manager.modify(model, optimizer, steps_per_epoch=len(dataloader),
wrap_optim=scaler)` call; otherwise return the scaler unchanged. -/
def SparseMLWrapper.modify {Model Optim Scaler Logger D : Type}
    (w : SparseMLWrapper Model Optim Scaler Logger) (scaler : Scaler)
    (optimizer : Optim) (model : Model) (dataloader : List D) :
    Scaler × SparseMLWrapper Model Optim Scaler Logger × List (MEvent Model Optim Scaler) :=
  if w.enabled then
    match w.manager with
    | some m =>
      (m.modifyRes model optimizer dataloader.length scaler, w,
       [MEvent.modifyCall model optimizer dataloader.length scaler])
    | none => (scaler, w, [])
  else (scaler, w, [])

/-- `check_lr_override`: drop the scheduler (and log) when the recipe has LR
modifiers; otherwise pass the scheduler through. -/
def SparseMLWrapper.check_lr_override {Model Optim Scaler Logger Sched : Type}
    (w : SparseMLWrapper Model Optim Scaler Logger) (scheduler : Option Sched) :
    Option Sched × SparseMLWrapper Model Optim Scaler Logger × List (MEvent Model Optim Scaler) :=
  if w.enabled && (match w.manager with
      | some m => !m.learning_rate_modifiers.isEmpty
      | none => false) then
    (none, w,
     [MEvent.logInfo "Disabling LR scheduler, managing LR using SparseML recipe"])
  else (scheduler, w, [])

/-- `check_epoch_override`: replace the epoch count by the manager's
`max_epochs` (and log) when the recipe has epoch modifiers and a truthy
`max_epochs`; otherwise pass the epoch count through. -/
def SparseMLWrapper.check_epoch_override {Model Optim Scaler Logger : Type}
    (w : SparseMLWrapper Model Optim Scaler Logger) (epochs : Int) :
    Int × SparseMLWrapper Model Optim Scaler Logger × List (MEvent Model Optim Scaler) :=
  if w.enabled && (match w.manager with
      | some m => !m.epoch_modifiers.isEmpty && m.max_epochs != 0
      | none => false) then
    match w.manager with
    | some m =>
      let epochs' := if m.max_epochs != 0 then m.max_epochs else epochs
      (epochs', w,
       [MEvent.logInfo
         ("Overriding number of epochs from SparseML manager to " ++ toString epochs')])
    | none => (epochs, w, [])
  else (epochs, w, [])

/-- Python `min(x, *rest)` over rationals, as a left fold. -/
def pyMin (a : ℚ) (l : List ℚ) : ℚ := l.foldl min a

/-- Python `max(x, *rest)` over rationals, as a left fold. -/
def pyMax (a : ℚ) (l : List ℚ) : ℚ := l.foldl max a

/-- `qat_active`: when enabled and the recipe has quantization modifiers,
whether the earliest quantization start epoch is before `epoch + 1`. -/
def SparseMLWrapper.qat_active {Model Optim Scaler Logger : Type}
    (w : SparseMLWrapper Model Optim Scaler Logger) (epoch : Int) : Bool :=
  if w.enabled then
    match w.manager with
    | some m =>
      match m.quantization_modifiers with
      | [] => false
      | mod0 :: rest =>
        decide
          (pyMin mod0.start_epoch (rest.map Modifier.start_epoch) < (epoch : ℚ) + 1)
    | none => false
  else false

/-- `reset_best`: when enabled, whether `epoch` lies in the (floor/ceil
rounded) pruning range or equals the (floored) last quantization start. -/
def SparseMLWrapper.reset_best {Model Optim Scaler Logger : Type}
    (w : SparseMLWrapper Model Optim Scaler Logger) (epoch : Int) : Bool :=
  if !w.enabled then false
  else
    match w.manager with
    | some m =>
      let pruning_start : Int :=
        match m.pruning_modifiers with
        | [] => -1
        | mod0 :: rest => ⌊pyMax mod0.start_epoch (rest.map Modifier.start_epoch)⌋
      let pruning_end : Int :=
        match m.pruning_modifiers with
        | [] => -1
        | mod0 :: rest => ⌈pyMax mod0.end_epoch (rest.map Modifier.end_epoch)⌉
      let qat_start : Int :=
        match m.quantization_modifiers with
        | [] => -1
        | mod0 :: rest => ⌊pyMax mod0.start_epoch (rest.map Modifier.start_epoch)⌋
      decide (pruning_start ≤ epoch ∧ epoch ≤ pruning_end) || decide (epoch = qat_start)
    | none => false

/-! ## Lemmas -/

/-! ### Decimal rendering -/

theorem digitChar_inj_lt : ∀ a, a < 10 → ∀ b, b < 10 →
    Nat.digitChar a = Nat.digitChar b → a = b := by decide

theorem map_digitChar_inj : ∀ l1 l2 : List Nat, (∀ x ∈ l1, x < 10) →
    (∀ x ∈ l2, x < 10) → l1.map Nat.digitChar = l2.map Nat.digitChar → l1 = l2 := by
  intro l1
  induction l1 with
  | nil => intro l2 _ _ h; cases l2 <;> simp_all
  | cons a l ih =>
    intro l2 h1 h2 h
    cases l2 with
    | nil => simp_all
    | cons b l' =>
      simp only [List.map_cons, List.cons.injEq] at h
      have hab : a = b :=
        digitChar_inj_lt a (h1 a (by simp)) b (h2 b (by simp)) h.1
      have : l = l' := ih l' (fun x hx => h1 x (by simp [hx]))
        (fun x hx => h2 x (by simp [hx])) h.2
      simp [hab, this]

theorem natStrAux_inj : ∀ m n : Nat, natStrAux m = natStrAux n → m = n := by
  have key : ∀ n : Nat, n ≠ 0 →
      ∀ m : Nat, natStrAux m = natStrAux n → m ≠ 0 →
      Nat.digits 10 m = Nat.digits 10 n := by
    intro n hn m h hm
    simp only [natStrAux, if_neg hn, if_neg hm] at h
    have := map_digitChar_inj _ _
      (fun x hx => Nat.digits_lt_base (by norm_num) (List.mem_reverse.mp hx))
      (fun x hx => Nat.digits_lt_base (by norm_num) (List.mem_reverse.mp hx)) h
    exact List.reverse_injective this
  intro m n h
  by_cases hm : m = 0 <;> by_cases hn : n = 0
  · simp [hm, hn]
  · -- m = 0, n ≠ 0 : the digit list of n would be [0], forcing n = 0
    exfalso
    subst hm
    simp only [natStrAux, if_pos rfl, if_neg hn] at h
    have h0 : ∀ x ∈ Nat.digits 10 n, x < 10 :=
      fun x hx => Nat.digits_lt_base (by norm_num) hx
    have : (Nat.digits 10 n).reverse = [0] := by
      apply map_digitChar_inj
      · intro x hx; exact h0 x (List.mem_reverse.mp hx)
      · intro x hx; simp at hx; simp [hx]
      · rw [← h]; rfl
    have : Nat.digits 10 n = [0] := by
      have := congrArg List.reverse this; simpa using this
    have := congrArg (Nat.ofDigits 10) this
    rw [Nat.ofDigits_digits] at this
    simp [Nat.ofDigits] at this
    exact hn this
  · exfalso
    subst hn
    simp only [natStrAux, if_pos rfl, if_neg hm] at h
    have h0 : ∀ x ∈ Nat.digits 10 m, x < 10 :=
      fun x hx => Nat.digits_lt_base (by norm_num) hx
    have : (Nat.digits 10 m).reverse = [0] := by
      apply map_digitChar_inj
      · intro x hx; exact h0 x (List.mem_reverse.mp hx)
      · intro x hx; simp at hx; simp [hx]
      · rw [h]; rfl
    have : Nat.digits 10 m = [0] := by
      have := congrArg List.reverse this; simpa using this
    have := congrArg (Nat.ofDigits 10) this
    rw [Nat.ofDigits_digits] at this
    simp [Nat.ofDigits] at this
    exact hm this
  · have := key n hn m h hm
    have := congrArg (Nat.ofDigits 10) this
    rwa [Nat.ofDigits_digits, Nat.ofDigits_digits] at this

theorem natStr_inj : ∀ m n : Nat, natStr m = natStr n → m = n := by
  intro m n h
  exact natStrAux_inj m n (congrArg String.data h)

theorem natStrAux_ne_nil (n : Nat) : natStrAux n ≠ [] := by
  unfold natStrAux
  by_cases h : n = 0
  · simp [h]
  · simp only [if_neg h]
    intro hc
    have : Nat.digits 10 n = [] := by
      simpa using congrArg List.reverse hc
    exact (Nat.digits_ne_nil_iff_ne_zero.mpr h) this

/-! ### Candidate output names -/

theorem natStr_length_pos (n : Nat) : 0 < (natStr n).data.length :=
  List.length_pos.mpr (natStrAux_ne_nil n)

theorem candidateName_inj (fn : String) :
    ∀ i j : Nat, candidateName fn i = candidateName fn j → i = j := by
  have hzs : ∀ j : Nat, candidateName fn 0 ≠ candidateName fn (j + 1) := by
    intro j h
    have hd := congrArg String.data h
    simp only [candidateName, String.data_append] at hd
    have hl := congrArg List.length hd
    simp only [List.length_append, List.length_cons, List.length_nil] at hl
    have hp := natStr_length_pos (j + 1)
    omega
  intro i j h
  match i, j with
  | 0, 0 => rfl
  | 0, j + 1 => exact absurd h (hzs j)
  | i + 1, 0 => exact absurd h.symm (hzs i)
  | i + 1, j + 1 =>
    have hd := congrArg String.data h
    simp only [candidateName, String.data_append, List.append_assoc] at hd
    have h1 := List.append_cancel_left hd
    have h2 := List.append_cancel_left h1
    have h3 := List.append_cancel_right h2
    exact natStrAux_inj (i + 1) (j + 1) h3

theorem pathFor_inj (dir : PyPath) (fn : String) (i j : Nat)
    (h : pathFor dir fn i = pathFor dir fn j) : i = j := by
  unfold pathFor at h
  have h1 := List.append_cancel_left h
  simp only [List.cons.injEq, and_true] at h1
  exact candidateName_inj fn i j h1

/-- The safe-name loop: when some candidate within the fuel bound is free, the
loop stops at the first free candidate. -/
theorem safeLoop_spec (fs : FS) (dir : PyPath) (fn : String) :
    ∀ fuel k, (∃ j, j < fuel ∧ fs.existsPath (pathFor dir fn (k + j)) = false) →
    ∃ j, fs.existsPath (pathFor dir fn (k + j)) = false ∧
      (∀ i, i < j → fs.existsPath (pathFor dir fn (k + i)) = true) ∧
      safeLoop fs dir fn fuel k = pathFor dir fn (k + j) := by
  intro fuel
  induction fuel with
  | zero =>
    rintro k ⟨j, hj, _⟩
    omega
  | succ fuel ih =>
    rintro k ⟨j, hj, hfree⟩
    by_cases hk : fs.existsPath (pathFor dir fn k) = true
    · have hj0 : j ≠ 0 := by
        intro h0
        rw [h0, Nat.add_zero] at hfree
        rw [hk] at hfree
        simp at hfree
      obtain ⟨j', rfl⟩ : ∃ j', j = j' + 1 := ⟨j - 1, by omega⟩
      obtain ⟨j2, h1, h2, h3⟩ := ih (k + 1)
        ⟨j', by omega, by rw [show k + 1 + j' = k + (j' + 1) by omega]; exact hfree⟩
      refine ⟨j2 + 1, ?_, ?_, ?_⟩
      · rw [show k + (j2 + 1) = k + 1 + j2 by omega]
        exact h1
      · intro i hi
        cases i with
        | zero => simpa using hk
        | succ i' =>
          rw [show k + (i' + 1) = k + 1 + i' by omega]
          exact h2 i' (by omega)
      · rw [safeLoop, if_pos hk, h3, show k + 1 + j2 = k + (j2 + 1) by omega]
    · have hk' : fs.existsPath (pathFor dir fn k) = false := by
        cases h : fs.existsPath (pathFor dir fn k)
        · rfl
        · exact absurd h hk
      refine ⟨0, by simpa using hk', fun i hi => absurd hi (by omega), ?_⟩
      rw [safeLoop, if_neg (by rw [hk']; exact Bool.false_ne_true), Nat.add_zero]

/-- Pigeonhole: among the first `|files| + |dirs| + 1` candidate paths, one
does not exist on the file system. -/
theorem exists_fresh (fs : FS) (dir : PyPath) (fn : String) :
    ∃ j, j < fs.files.length + fs.dirs.length + 1 ∧
      fs.existsPath (pathFor dir fn j) = false := by
  by_contra hc
  push_neg at hc
  have hall : ∀ j < fs.files.length + fs.dirs.length + 1,
      pathFor dir fn j ∈ fs.files ++ fs.dirs := by
    intro j hj
    have h1 := hc j hj
    have h2 : fs.existsPath (pathFor dir fn j) = true := by
      cases h : fs.existsPath (pathFor dir fn j)
      · exact absurd h h1
      · rfl
    simp only [FS.existsPath, Bool.or_eq_true, decide_eq_true_eq] at h2
    exact List.mem_append.mpr h2
  set l := (List.range (fs.files.length + fs.dirs.length + 1)).map (pathFor dir fn) with hl
  have hnd : l.Nodup :=
    List.Nodup.map (fun a b hab => pathFor_inj dir fn a b hab) (List.nodup_range _)
  have hsub : l ⊆ fs.files ++ fs.dirs := by
    intro x hx
    rw [hl, List.mem_map] at hx
    obtain ⟨j, hj, rfl⟩ := hx
    exact hall j (List.mem_range.mp hj)
  have hcard : l.length ≤ (fs.files ++ fs.dirs).length := by
    calc l.length = l.toFinset.card := (List.toFinset_card_of_nodup hnd).symm
    _ ≤ (fs.files ++ fs.dirs).toFinset.card := by
        apply Finset.card_le_card
        intro x hx
        exact List.mem_toFinset.mpr (hsub (List.mem_toFinset.mp hx))
    _ ≤ (fs.files ++ fs.dirs).length := (fs.files ++ fs.dirs).toFinset_card_le
  rw [hl] at hcard
  simp only [List.length_map, List.length_range, List.length_append] at hcard
  omega

/-- `getSafeName` returns the first free candidate: a free candidate path in
`save_dir`, every earlier candidate existing. -/
theorem getSafeName_spec (fs : FS) (dir cp : PyPath) (name : Option String) :
    ∃ j, fs.existsPath (pathFor dir (chosenStem cp name) j) = false ∧
      (∀ i, i < j → fs.existsPath (pathFor dir (chosenStem cp name) i) = true) ∧
      getSafeName fs dir cp name = pathFor dir (chosenStem cp name) j := by
  obtain ⟨j, hj, hfree⟩ := exists_fresh fs dir (chosenStem cp name)
  have h := safeLoop_spec fs dir (chosenStem cp name)
    (fs.files.length + fs.dirs.length + 1) 0 ⟨j, hj, by simpa using hfree⟩
  simpa [getSafeName] using h

/-- Successful construction: with an existing checkpoint, `__post_init__`
returns the converted arguments, the save directory made, and the safe name. -/
theorem postInit_ok (a : ExportArgs) (fs : FS)
    (h : fs.existsPath (pathOfString a.checkpoint) = true) :
    a.postInit fs = .ok
      (⟨pathOfString a.checkpoint, a.config, a.recipe, a.no_qat, a.batch_size,
        a.image_shape, pathOfString a.save_dir,
        getSafeName (fs.mkdirParents (pathOfString a.save_dir))
          (pathOfString a.save_dir) (pathOfString a.checkpoint) a.name⟩,
       fs.mkdirParents (pathOfString a.save_dir)) := by
  unfold ExportArgs.postInit
  simp only [h]
  simp

/-! ### Path stems -/

theorem rfindDot_append_some (l m : List Char) (i : Nat) (h : rfindDot m = some i) :
    rfindDot (l ++ m) = some (l.length + i) := by
  induction l with
  | nil => simpa using h
  | cons c l ih =>
    rw [List.cons_append, rfindDot, ih]
    simp only [List.length_cons]
    congr 1
    omega

theorem stemOf_append_onnx (x : String) (hx : x.data ≠ []) :
    stemOf (x ++ ".onnx") = x := by
  have hpos : 0 < x.data.length := List.length_pos.mpr hx
  have h5 : rfindDot (".onnx".data) = some 0 := by decide
  have hlen : (".onnx".data).length = 5 := by decide
  simp only [stemOf, String.data_append]
  rw [rfindDot_append_some x.data ".onnx".data 0 h5]
  simp only [Nat.add_zero]
  rw [if_pos ⟨hpos, by simp only [List.length_append, hlen]; omega⟩]
  rw [List.take_left]

theorem stemOf_data_ne_nil (s : String) (h : s.data ≠ []) : (stemOf s).data ≠ [] := by
  simp only [stemOf]
  cases hr : rfindDot s.data with
  | none => exact h
  | some i =>
    by_cases hc : 0 < i ∧ i < s.data.length - 1
    · simp only [if_pos hc]
      intro he
      have ht : s.data.take i = [] := he
      have := congrArg List.length ht
      simp only [List.length_take, List.length_nil] at this
      omega
    · simp only [if_neg hc]
      exact h

theorem stemOf_mem (s : String) : ∀ c ∈ (stemOf s).data, c ∈ s.data := by
  simp only [stemOf]
  cases hr : rfindDot s.data with
  | none => intro c hc; exact hc
  | some i =>
    by_cases hcnd : 0 < i ∧ i < s.data.length - 1
    · simp only [if_pos hcnd]
      intro c hc
      exact List.take_subset _ _ hc
    · simp only [if_neg hcnd]
      intro c hc
      exact hc

theorem splitSlash_no_slash : ∀ cs : List Char, (∀ c ∈ cs, c ≠ '/') →
    splitSlash cs = [cs] := by
  intro cs
  induction cs with
  | nil => intro _; rfl
  | cons c rest ih =>
    intro h
    have hc : c ≠ '/' := h c (by simp)
    simp only [splitSlash, if_neg hc, ih (fun x hx => h x (by simp [hx]))]

theorem pathOfString_single (s : String) (h1 : s.data ≠ []) (h2 : s ≠ ".")
    (h3 : ∀ c ∈ s.data, c ≠ '/') : pathOfString s = [s] := by
  unfold pathOfString
  rw [splitSlash_no_slash s.data h3]
  have hs : s ≠ "" := fun he => h1 (congrArg String.data he)
  simp only [List.map]
  show List.filter _ [s] = [s]
  simp [hs, h2, List.filter]

/-- The default branch of `get_safe_name`: with a falsy `name`, the chosen
stem is the checkpoint name's stem, so the first candidate is exactly the
checkpoint's file name with its extension replaced by `.onnx`. -/
theorem chosenStem_default (cp : PyPath) (nm : Option String)
    (hnm : truthyOpt nm = false)
    (hne : (PyPath.nameC cp).data ≠ [])
    (hsl : ∀ c ∈ (PyPath.nameC cp).data, c ≠ '/') :
    chosenStem cp nm = stemOf (PyPath.nameC cp) ∧
    candidateName (chosenStem cp nm) 0 = withSuffix (PyPath.nameC cp) ".onnx" := by
  have hx : (stemOf (PyPath.nameC cp)).data ≠ [] := stemOf_data_ne_nil _ hne
  have hdata : (stemOf (PyPath.nameC cp) ++ ".onnx").data =
      (stemOf (PyPath.nameC cp)).data ++ ".onnx".data := String.data_append _ _
  have h1 : (stemOf (PyPath.nameC cp) ++ ".onnx").data ≠ [] := by
    rw [hdata]
    intro he
    have := congrArg List.length he
    have hlen : (".onnx".data).length = 5 := by decide
    simp only [List.length_append, hlen, List.length_nil] at this
    omega
  have h2 : stemOf (PyPath.nameC cp) ++ ".onnx" ≠ "." := by
    intro he
    have := congrArg List.length (congrArg String.data he)
    rw [hdata] at this
    have hlen : (".onnx".data).length = 5 := by decide
    have hdot : (".".data).length = 1 := by decide
    simp only [List.length_append, hlen, hdot] at this
    omega
  have h3 : ∀ c ∈ (stemOf (PyPath.nameC cp) ++ ".onnx").data, c ≠ '/' := by
    rw [hdata]
    intro c hc
    rcases List.mem_append.mp hc with hm | hm
    · exact hsl c (stemOf_mem _ c hm)
    · have : ∀ c ∈ ".onnx".data, c ≠ '/' := by decide
      exact this c hm
  have hstem : chosenStem cp nm = stemOf (PyPath.nameC cp) := by
    unfold chosenStem
    rw [if_neg (by rw [hnm]; exact Bool.false_ne_true)]
    unfold withSuffix
    rw [pathOfString_single _ h1 h2 h3]
    show stemOf (stemOf (PyPath.nameC cp) ++ ".onnx") = _
    exact stemOf_append_onnx _ hx
  exact ⟨hstem, by rw [hstem]; rfl⟩

/-! ## Claims -/

/-- **C1**: for every `ExportArgs` construction (an existing checkpoint, so
construction completes), the computed output name is a path in `save_dir`
ending in `.onnx` that does not exist on the file system at the time of
return; if `save_dir/<stem>.onnx` already exists the result is
`save_dir/<stem>-k.onnx` for the least `k ≥ 1` whose path does not exist, so
an existing output file is never chosen. -/
theorem claim_c1_safe_name (a : ExportArgs) (fs : FS)
    (h : fs.existsPath (pathOfString a.checkpoint) = true) :
    ∃ ia fs', a.postInit fs = .ok (ia, fs') ∧
      (∃ s : String, ia.name = pathOfString a.save_dir ++ [s ++ ".onnx"]) ∧
      fs'.existsPath ia.name = false ∧
      (fs'.existsPath (pathFor (pathOfString a.save_dir)
          (chosenStem (pathOfString a.checkpoint) a.name) 0) = false →
        ia.name = pathFor (pathOfString a.save_dir)
          (chosenStem (pathOfString a.checkpoint) a.name) 0) ∧
      (fs'.existsPath (pathFor (pathOfString a.save_dir)
          (chosenStem (pathOfString a.checkpoint) a.name) 0) = true →
        ∃ k, 1 ≤ k ∧
          ia.name = pathFor (pathOfString a.save_dir)
            (chosenStem (pathOfString a.checkpoint) a.name) k ∧
          fs'.existsPath (pathFor (pathOfString a.save_dir)
            (chosenStem (pathOfString a.checkpoint) a.name) k) = false ∧
          ∀ j, 1 ≤ j → j < k →
            fs'.existsPath (pathFor (pathOfString a.save_dir)
              (chosenStem (pathOfString a.checkpoint) a.name) j) = true) := by
  refine ⟨_, _, postInit_ok a fs h, ?_⟩
  obtain ⟨j, hfree, hprev, heq⟩ :=
    getSafeName_spec (fs.mkdirParents (pathOfString a.save_dir))
      (pathOfString a.save_dir) (pathOfString a.checkpoint) a.name
  rw [heq]
  refine ⟨?_, hfree, ?_, ?_⟩
  · cases j with
    | zero => exact ⟨chosenStem (pathOfString a.checkpoint) a.name, rfl⟩
    | succ k =>
      exact ⟨chosenStem (pathOfString a.checkpoint) a.name ++ "-" ++ natStr (k + 1), rfl⟩
  · intro h0
    cases j with
    | zero => rfl
    | succ k =>
      have := hprev 0 (Nat.succ_pos k)
      rw [h0] at this
      simp at this
  · intro h0
    cases j with
    | zero =>
      rw [h0] at hfree
      simp at hfree
    | succ k =>
      exact ⟨k + 1, Nat.succ_le_succ (Nat.zero_le k), rfl, hfree,
        fun i _ hik => hprev i hik⟩

/-- Witness for C1: checkpoint `c.pth` exists; `o/m.onnx` and `o/m-1.onnx`
already exist, so the collision loop is exercised. -/
theorem claim_c1_witness :
    (⟨[["c.pth"], ["o", "m.onnx"], ["o", "m-1.onnx"]], []⟩ : FS).existsPath
      (pathOfString (⟨"c.pth", "cfg", none, false, 1, [3, 550, 550], "o",
        some "m"⟩ : ExportArgs).checkpoint) = true ∧
    (∃ ia fs',
      (⟨"c.pth", "cfg", none, false, 1, [3, 550, 550], "o",
        some "m"⟩ : ExportArgs).postInit
          (⟨[["c.pth"], ["o", "m.onnx"], ["o", "m-1.onnx"]], []⟩ : FS) = .ok (ia, fs') ∧
      (∃ s : String, ia.name = pathOfString "o" ++ [s ++ ".onnx"]) ∧
      fs'.existsPath ia.name = false ∧
      (fs'.existsPath (pathFor (pathOfString "o")
          (chosenStem (pathOfString "c.pth") (some "m")) 0) = false →
        ia.name = pathFor (pathOfString "o")
          (chosenStem (pathOfString "c.pth") (some "m")) 0) ∧
      (fs'.existsPath (pathFor (pathOfString "o")
          (chosenStem (pathOfString "c.pth") (some "m")) 0) = true →
        ∃ k, 1 ≤ k ∧
          ia.name = pathFor (pathOfString "o")
            (chosenStem (pathOfString "c.pth") (some "m")) k ∧
          fs'.existsPath (pathFor (pathOfString "o")
            (chosenStem (pathOfString "c.pth") (some "m")) k) = false ∧
          ∀ j, 1 ≤ j → j < k →
            fs'.existsPath (pathFor (pathOfString "o")
              (chosenStem (pathOfString "c.pth") (some "m")) j) = true)) :=
  ⟨by decide, claim_c1_safe_name _ _ (by decide)⟩

/-- **C2**: construction raises `FileNotFoundError` exactly when the
checkpoint path does not exist, and succeeds exactly when it does; the
`PyError` type records that this is the only error `export.py` itself
raises. -/
theorem claim_c2_checkpoint_error (a : ExportArgs) (fs : FS) :
    ((∃ msg, a.postInit fs = .error (.fileNotFound msg)) ↔
      fs.existsPath (pathOfString a.checkpoint) = false) ∧
    ((∃ ia fs', a.postInit fs = .ok (ia, fs')) ↔
      fs.existsPath (pathOfString a.checkpoint) = true) := by
  by_cases h : fs.existsPath (pathOfString a.checkpoint) = true
  · rw [postInit_ok a fs h]
    constructor
    · simp [h]
    · simp [h]
  · have h' : fs.existsPath (pathOfString a.checkpoint) = false := by
      cases hx : fs.existsPath (pathOfString a.checkpoint)
      · rfl
      · exact absurd hx h
    constructor
    · constructor
      · intro _; exact h'
      · intro _
        refine ⟨"The checkpoint " ++ PyPath.render (pathOfString a.checkpoint)
          ++ " does not exist.", ?_⟩
        unfold ExportArgs.postInit
        simp only [h']
        simp
    · constructor
      · rintro ⟨ia, fs', hok⟩
        unfold ExportArgs.postInit at hok
        simp only [h'] at hok
        simp at hok
      · intro hx; exact absurd hx h

/-- **C8**: successful construction creates the save directory: afterwards
every prefix of `save_dir` (ancestors included) is a directory of the file
system, pre-existing entries are kept (so an already existing directory does
not make construction fail), and no file entry is touched. -/
theorem claim_c8_savedir_created (a : ExportArgs) (fs : FS)
    (h : fs.existsPath (pathOfString a.checkpoint) = true) :
    ∃ ia fs', a.postInit fs = .ok (ia, fs') ∧
      fs'.files = fs.files ∧
      (∀ d ∈ fs.dirs, d ∈ fs'.dirs) ∧
      (∀ i, i < (pathOfString a.save_dir).length →
        (pathOfString a.save_dir).take (i + 1) ∈ fs'.dirs) := by
  refine ⟨_, _, postInit_ok a fs h, rfl, ?_, ?_⟩
  · intro d hd
    unfold FS.mkdirParents
    exact List.mem_append_right _ hd
  · intro i hi
    unfold FS.mkdirParents
    apply List.mem_append_left
    unfold parentsOf
    exact List.mem_map.mpr ⟨i, List.mem_range.mpr hi, rfl⟩

/-- Witness for C8: `save_dir = "x/y"` with only its parent `x` pre-existing;
after construction both `x` and `x/y` are directories. -/
theorem claim_c8_witness :
    (⟨[["c.pth"]], [["x"]]⟩ : FS).existsPath
      (pathOfString (⟨"c.pth", "cfg", none, false, 1, [3, 550, 550], "x/y",
        none⟩ : ExportArgs).checkpoint) = true ∧
    (∃ ia fs',
      (⟨"c.pth", "cfg", none, false, 1, [3, 550, 550], "x/y",
        none⟩ : ExportArgs).postInit (⟨[["c.pth"]], [["x"]]⟩ : FS) = .ok (ia, fs') ∧
      fs'.files = (⟨[["c.pth"]], [["x"]]⟩ : FS).files ∧
      (∀ d ∈ (⟨[["c.pth"]], [["x"]]⟩ : FS).dirs, d ∈ fs'.dirs) ∧
      (∀ i, i < (pathOfString "x/y").length →
        (pathOfString "x/y").take (i + 1) ∈ fs'.dirs)) :=
  ⟨by decide, claim_c8_savedir_created _ _ (by decide)⟩

/-- **C9**: with a falsy `name` the base output file name (the collision
loop's first candidate) is the checkpoint's file name with its extension
replaced by `.onnx`, placed inside `save_dir`; with a given name, only its
stem is kept and `.onnx` is appended; and when that base name is free the
computed safe name is exactly the base name (suffixing happens only on
collision).  The two hypotheses rule out the degenerate checkpoint paths
(empty name, separator inside a component) on which the real code raises
`ValueError` inside `with_suffix` before any name is computed. -/
theorem claim_c9_default_name (a : ExportArgs)
    (hne : (PyPath.nameC (pathOfString a.checkpoint)).data ≠ [])
    (hsl : ∀ c ∈ (PyPath.nameC (pathOfString a.checkpoint)).data, c ≠ '/') :
    (truthyOpt a.name = false →
      pathFor (pathOfString a.save_dir) (chosenStem (pathOfString a.checkpoint) a.name) 0 =
        pathOfString a.save_dir ++
          [withSuffix (PyPath.nameC (pathOfString a.checkpoint)) ".onnx"]) ∧
    (∀ s, a.name = some s → s ≠ "" →
      pathFor (pathOfString a.save_dir) (chosenStem (pathOfString a.checkpoint) a.name) 0 =
        pathOfString a.save_dir ++
          [stemOf (PyPath.nameC (pathOfString s)) ++ ".onnx"]) ∧
    (∀ fs2 : FS, fs2.existsPath (pathFor (pathOfString a.save_dir)
        (chosenStem (pathOfString a.checkpoint) a.name) 0) = false →
      getSafeName fs2 (pathOfString a.save_dir) (pathOfString a.checkpoint) a.name =
        pathFor (pathOfString a.save_dir)
          (chosenStem (pathOfString a.checkpoint) a.name) 0) := by
  refine ⟨?_, ?_, ?_⟩
  · intro hnm
    obtain ⟨_, h2⟩ := chosenStem_default (pathOfString a.checkpoint) a.name hnm hne hsl
    unfold pathFor
    rw [h2]
  · intro s hs hs'
    have hchosen : chosenStem (pathOfString a.checkpoint) a.name =
        stemOf (PyPath.nameC (pathOfString s)) := by
      rw [hs]
      unfold chosenStem
      rw [if_pos]
      · rfl
      · simp [truthyOpt, hs']
    unfold pathFor
    rw [hchosen]
    rfl
  · intro fs2 hfree
    obtain ⟨j, hf, hp, he⟩ := getSafeName_spec fs2 (pathOfString a.save_dir)
      (pathOfString a.checkpoint) a.name
    cases j with
    | zero => exact he
    | succ k =>
      have := hp 0 (Nat.succ_pos k)
      rw [hfree] at this
      simp at this

/-- Witness for C9: checkpoint `w/model.pth`, no name given; the base output
name is `model.onnx` inside `out`. -/
theorem claim_c9_witness :
    ((PyPath.nameC (pathOfString "w/model.pth")).data ≠ [] ∧
     (∀ c ∈ (PyPath.nameC (pathOfString "w/model.pth")).data, c ≠ '/')) ∧
    ((truthyOpt none = false →
      pathFor (pathOfString "out") (chosenStem (pathOfString "w/model.pth") none) 0 =
        pathOfString "out" ++
          [withSuffix (PyPath.nameC (pathOfString "w/model.pth")) ".onnx"]) ∧
    (∀ s, (none : Option String) = some s → s ≠ "" →
      pathFor (pathOfString "out") (chosenStem (pathOfString "w/model.pth") none) 0 =
        pathOfString "out" ++
          [stemOf (PyPath.nameC (pathOfString s)) ++ ".onnx"]) ∧
    (∀ fs2 : FS, fs2.existsPath (pathFor (pathOfString "out")
        (chosenStem (pathOfString "w/model.pth") none) 0) = false →
      getSafeName fs2 (pathOfString "out") (pathOfString "w/model.pth") none =
        pathFor (pathOfString "out")
          (chosenStem (pathOfString "w/model.pth") none) 0)) :=
  ⟨⟨by decide, by decide⟩,
   claim_c9_default_name
     (⟨"w/model.pth", "cfg", none, false, 1, [3, 550, 550], "out", none⟩ : ExportArgs)
     (by decide) (by decide)⟩

/-- **C5**: of the calls `export` makes, the ones the claim enumerates are,
in order: recipe application (present exactly when a recipe is given), weight
loading, and the ONNX export with sample-batch shape
`(batch_size, *image_shape)` and `convert_qat = not no_qat` — so weight
loading always happens after recipe application and before export. -/
theorem claim_c5_export_calls (a : InitArgs) :
    (exportTrace a).filter isMainLibCall =
      (match a.recipe with
       | some r => [ExportEvent.applyRecipe r]
       | none => []) ++
      [ExportEvent.loadWeights a.checkpoint,
       ExportEvent.exportOnnx (a.batch_size :: a.image_shape)
         (PyPath.render a.name) (!a.no_qat)] := by
  cases h : a.recipe <;>
    simp [exportTrace, isMainLibCall, h, List.filter]

/-- **C6**: the CLI defines exactly the eight flags `--checkpoint`,
`--config`, `--recipe`, `--no-qat`, `--batch-size`, `--image-shape`,
`--save-dir`, `--name`; only `--checkpoint` is required; parsing an empty
command line fails, and parsing with only `--checkpoint` succeeds with the
declared defaults. -/
theorem claim_c6_cli_flags :
    exportParserSpecs.map ArgSpec.flag =
      ["--checkpoint", "--config", "--recipe", "--no-qat", "--batch-size",
       "--image-shape", "--save-dir", "--name"] ∧
    (exportParserSpecs.filter (fun s => s.required)).map ArgSpec.flag =
      ["--checkpoint"] ∧
    parse_args [] = .error "the following arguments are required" ∧
    parse_args [("--checkpoint", CliVal.vstr "ckpt.pth")] =
      .ok ⟨"ckpt.pth", "yolact_base_config", none, false, 1, [3, 550, 550],
        "./exported_models", none⟩ := by
  refine ⟨by decide, by decide, rfl, rfl⟩

/-- **C4**: `DeepsparseWrapper.__call__` converts the input to a numpy array,
runs the engine's `mapped_run` on the single-element list containing it,
rebuilds the dictionary of tensors under the names `loc`, `conf`, `mask`,
`priors`, `proto` in that order (exactly those keys whenever the engine
returns at least five outputs), and returns the detection routine applied to
that dictionary. -/
theorem claim_c4_call_sequence {Arr Tensor Res : Type}
    (w : DeepsparseWrapper Arr Tensor Res) (inputs : Tensor) :
    w.call inputs =
      (w.detect (List.zip ["loc", "conf", "mask", "priors", "proto"]
        ((w.engine_mapped_run [w.cpu_numpy inputs]).map w.from_numpy)),
       [InferEvent.toNumpy, InferEvent.mappedRun [w.cpu_numpy inputs],
        InferEvent.detectCall (List.zip ["loc", "conf", "mask", "priors", "proto"]
          ((w.engine_mapped_run [w.cpu_numpy inputs]).map w.from_numpy))]) ∧
    (5 ≤ (w.engine_mapped_run [w.cpu_numpy inputs]).length →
      (List.zip ["loc", "conf", "mask", "priors", "proto"]
        ((w.engine_mapped_run [w.cpu_numpy inputs]).map w.from_numpy)).map Prod.fst =
        ["loc", "conf", "mask", "priors", "proto"]) := by
  constructor
  · rfl
  · intro h
    apply List.map_fst_zip
    simpa using h

/-- Folded minimum is below a bound iff some element (or the seed) is. -/
theorem pyMin_lt_iff (a : ℚ) (l : List ℚ) (x : ℚ) :
    pyMin a l < x ↔ a < x ∨ ∃ b ∈ l, b < x := by
  induction l generalizing a with
  | nil => simp [pyMin]
  | cons c t ih =>
    rw [pyMin, List.foldl_cons]
    rw [show List.foldl min (min a c) t = pyMin (min a c) t from rfl, ih]
    simp only [min_lt_iff, List.mem_cons, exists_eq_or_imp]
    tauto

/-- **C3** (amended): with a falsy recipe every `SparseMLWrapper` method
performs no manager call and returns its pass-through argument unchanged (or
the trivial constant), and every method except `initialize_loggers` leaves
the wrapper state unchanged; `initialize_loggers` still stores the given
logger on the wrapper even when disabled. -/
theorem claim_c3_disabled_noop {Model Optim Scaler Logger TB W Sched D : Type}
    (model : Model) (recipe : Option String)
    (fromYaml : String → Manager Model Optim Scaler)
    (h : truthyOpt recipe = false)
    (w : SparseMLWrapper Model Optim Scaler Logger)
    (hw : w = SparseMLWrapper.build model recipe fromYaml)
    (start_epoch : Int) (logger : Logger) (tb : TB) (wb : W) (rank : Int)
    (scaler : Scaler) (optimizer : Optim) (mdl : Model) (dataloader : List D)
    (scheduler : Option Sched) (epochs : Int) (epoch epoch2 : Int) :
    w.state_dict = none ∧
    w.apply = (w, []) ∧
    w.initEpoch start_epoch = (w, []) ∧
    w.initLoggers logger tb wb rank = ({w with logger := some logger}, []) ∧
    w.modify scaler optimizer mdl dataloader = (scaler, w, []) ∧
    w.check_lr_override scheduler = (scheduler, w, []) ∧
    w.check_epoch_override epochs = (epochs, w, []) ∧
    w.qat_active epoch = false ∧
    w.reset_best epoch2 = false := by
  have he : w.enabled = false := by
    rw [hw]; simp [SparseMLWrapper.build, h]
  refine ⟨?_, ?_, ?_, ?_, ?_, ?_, ?_, ?_, ?_⟩ <;>
    simp [SparseMLWrapper.state_dict, SparseMLWrapper.apply,
      SparseMLWrapper.initEpoch, SparseMLWrapper.initLoggers,
      SparseMLWrapper.modify, SparseMLWrapper.check_lr_override,
      SparseMLWrapper.check_epoch_override, SparseMLWrapper.qat_active,
      SparseMLWrapper.reset_best, he]

/-- Witness for C3 (amended), at concrete types and values with no recipe. -/
theorem claim_c3_witness :
    truthyOpt none = false ∧
    ((SparseMLWrapper.build 0 none
        (fun _ => (⟨"", [], [], [], [], 0, fun _ _ _ s => s⟩ : Manager Nat Nat Nat))
        : SparseMLWrapper Nat Nat Nat Nat).state_dict = none ∧
     (SparseMLWrapper.build 0 none
        (fun _ => (⟨"", [], [], [], [], 0, fun _ _ _ s => s⟩ : Manager Nat Nat Nat))
        : SparseMLWrapper Nat Nat Nat Nat).apply =
       ((SparseMLWrapper.build 0 none
        (fun _ => (⟨"", [], [], [], [], 0, fun _ _ _ s => s⟩ : Manager Nat Nat Nat))
        : SparseMLWrapper Nat Nat Nat Nat), []) ∧
     (SparseMLWrapper.build 0 none
        (fun _ => (⟨"", [], [], [], [], 0, fun _ _ _ s => s⟩ : Manager Nat Nat Nat))
        : SparseMLWrapper Nat Nat Nat Nat).initEpoch 2 =
       ((SparseMLWrapper.build 0 none
        (fun _ => (⟨"", [], [], [], [], 0, fun _ _ _ s => s⟩ : Manager Nat Nat Nat))
        : SparseMLWrapper Nat Nat Nat Nat), []) ∧
     (SparseMLWrapper.build 0 none
        (fun _ => (⟨"", [], [], [], [], 0, fun _ _ _ s => s⟩ : Manager Nat Nat Nat))
        : SparseMLWrapper Nat Nat Nat Nat).initLoggers 5 () () 0 =
       ({(SparseMLWrapper.build 0 none
        (fun _ => (⟨"", [], [], [], [], 0, fun _ _ _ s => s⟩ : Manager Nat Nat Nat))
        : SparseMLWrapper Nat Nat Nat Nat) with logger := some 5}, []) ∧
     (SparseMLWrapper.build 0 none
        (fun _ => (⟨"", [], [], [], [], 0, fun _ _ _ s => s⟩ : Manager Nat Nat Nat))
        : SparseMLWrapper Nat Nat Nat Nat).modify 9 4 3 [7, 7] =
       (9, (SparseMLWrapper.build 0 none
        (fun _ => (⟨"", [], [], [], [], 0, fun _ _ _ s => s⟩ : Manager Nat Nat Nat))
        : SparseMLWrapper Nat Nat Nat Nat), []) ∧
     (SparseMLWrapper.build 0 none
        (fun _ => (⟨"", [], [], [], [], 0, fun _ _ _ s => s⟩ : Manager Nat Nat Nat))
        : SparseMLWrapper Nat Nat Nat Nat).check_lr_override (some 8) =
       (some 8, (SparseMLWrapper.build 0 none
        (fun _ => (⟨"", [], [], [], [], 0, fun _ _ _ s => s⟩ : Manager Nat Nat Nat))
        : SparseMLWrapper Nat Nat Nat Nat), []) ∧
     (SparseMLWrapper.build 0 none
        (fun _ => (⟨"", [], [], [], [], 0, fun _ _ _ s => s⟩ : Manager Nat Nat Nat))
        : SparseMLWrapper Nat Nat Nat Nat).check_epoch_override 11 =
       (11, (SparseMLWrapper.build 0 none
        (fun _ => (⟨"", [], [], [], [], 0, fun _ _ _ s => s⟩ : Manager Nat Nat Nat))
        : SparseMLWrapper Nat Nat Nat Nat), []) ∧
     (SparseMLWrapper.build 0 none
        (fun _ => (⟨"", [], [], [], [], 0, fun _ _ _ s => s⟩ : Manager Nat Nat Nat))
        : SparseMLWrapper Nat Nat Nat Nat).qat_active 3 = false ∧
     (SparseMLWrapper.build 0 none
        (fun _ => (⟨"", [], [], [], [], 0, fun _ _ _ s => s⟩ : Manager Nat Nat Nat))
        : SparseMLWrapper Nat Nat Nat Nat).reset_best 6 = false) :=
  ⟨by decide,
   claim_c3_disabled_noop 0 none
     (fun _ => (⟨"", [], [], [], [], 0, fun _ _ _ s => s⟩ : Manager Nat Nat Nat))
     (by decide) _ rfl 2 5 () () 0 9 4 3 [7, 7] (some 8) 11 3 6⟩

/-- Counterexample to C3 as stated: on a wrapper built with recipe `None`
(disabled), `initialize_loggers` does not leave the wrapper state unchanged —
it stores the logger. -/
theorem claim_c3_counterexample :
    ((SparseMLWrapper.build 0 none
        (fun _ => (⟨"", [], [], [], [], 0, fun _ _ _ s => s⟩ : Manager Nat Nat Nat))
        : SparseMLWrapper Nat Nat Nat Nat).initLoggers 5 () () 0).1 ≠
      (SparseMLWrapper.build 0 none
        (fun _ => (⟨"", [], [], [], [], 0, fun _ _ _ s => s⟩ : Manager Nat Nat Nat))
        : SparseMLWrapper Nat Nat Nat Nat) := by
  intro hcontra
  have := congrArg SparseMLWrapper.logger hcontra
  simp [SparseMLWrapper.build, SparseMLWrapper.initLoggers, truthyOpt] at this

/-- **C7**: with a truthy recipe, `apply` performs exactly one
`manager.apply(self.model)` call; `initialize` exactly one
`manager.initialize(self.model, start_epoch)` call; and `modify` returns the
result of exactly one `manager.modify` call with `steps_per_epoch` the
dataloader's length and `wrap_optim` the scaler. -/
theorem claim_c7_enabled_delegation {Model Optim Scaler Logger D : Type}
    (model : Model) (recipe : Option String)
    (fromYaml : String → Manager Model Optim Scaler)
    (h : truthyOpt recipe = true)
    (w : SparseMLWrapper Model Optim Scaler Logger)
    (hw : w = SparseMLWrapper.build model recipe fromYaml)
    (start_epoch : Int) (scaler : Scaler) (optimizer : Optim) (mdl : Model)
    (dataloader : List D) :
    w.apply = (w, [MEvent.applyCall model]) ∧
    w.initEpoch start_epoch = (w, [MEvent.initCall model start_epoch]) ∧
    w.modify scaler optimizer mdl dataloader =
      ((fromYaml (recipe.getD "")).modifyRes mdl optimizer dataloader.length scaler, w,
       [MEvent.modifyCall mdl optimizer dataloader.length scaler]) := by
  have he : w.enabled = true := by
    rw [hw]; simp [SparseMLWrapper.build, h]
  have hm : w.manager = some (fromYaml (recipe.getD "")) := by
    rw [hw]; simp [SparseMLWrapper.build, h]
  have hmodel : w.model = model := by rw [hw]; rfl
  refine ⟨?_, ?_, ?_⟩
  · simp [SparseMLWrapper.apply, he, hmodel]
  · simp [SparseMLWrapper.initEpoch, he, hmodel]
  · simp [SparseMLWrapper.modify, he, hm]

/-- Witness for C7: a concrete enabled wrapper; `modify` on a two-element
dataloader returns the manager's response at `steps_per_epoch = 2`. -/
theorem claim_c7_witness :
    truthyOpt (some "r.yaml") = true ∧
    ((SparseMLWrapper.build 1 (some "r.yaml")
        (fun _ => (⟨"mgr", [], [], [], [], 0, fun a b n s => a + b + n + s⟩ :
          Manager Nat Nat Nat)) : SparseMLWrapper Nat Nat Nat Nat).apply =
       ((SparseMLWrapper.build 1 (some "r.yaml")
        (fun _ => (⟨"mgr", [], [], [], [], 0, fun a b n s => a + b + n + s⟩ :
          Manager Nat Nat Nat)) : SparseMLWrapper Nat Nat Nat Nat),
        [MEvent.applyCall 1]) ∧
     (SparseMLWrapper.build 1 (some "r.yaml")
        (fun _ => (⟨"mgr", [], [], [], [], 0, fun a b n s => a + b + n + s⟩ :
          Manager Nat Nat Nat)) : SparseMLWrapper Nat Nat Nat Nat).initEpoch 4 =
       ((SparseMLWrapper.build 1 (some "r.yaml")
        (fun _ => (⟨"mgr", [], [], [], [], 0, fun a b n s => a + b + n + s⟩ :
          Manager Nat Nat Nat)) : SparseMLWrapper Nat Nat Nat Nat),
        [MEvent.initCall 1 4]) ∧
     (SparseMLWrapper.build 1 (some "r.yaml")
        (fun _ => (⟨"mgr", [], [], [], [], 0, fun a b n s => a + b + n + s⟩ :
          Manager Nat Nat Nat)) : SparseMLWrapper Nat Nat Nat Nat).modify 9 4 3 [7, 7] =
       (((fun (_ : String) => (⟨"mgr", [], [], [], [], 0, fun a b n s => a + b + n + s⟩ :
            Manager Nat Nat Nat)) ((some "r.yaml").getD "")).modifyRes 3 4
          (List.length [7, 7]) 9,
        (SparseMLWrapper.build 1 (some "r.yaml")
        (fun _ => (⟨"mgr", [], [], [], [], 0, fun a b n s => a + b + n + s⟩ :
          Manager Nat Nat Nat)) : SparseMLWrapper Nat Nat Nat Nat),
        [MEvent.modifyCall 3 4 (List.length [7, 7]) 9])) :=
  ⟨by decide,
   claim_c7_enabled_delegation 1 (some "r.yaml")
     (fun _ => (⟨"mgr", [], [], [], [], 0, fun a b n s => a + b + n + s⟩ :
       Manager Nat Nat Nat))
     (by decide) _ rfl 4 9 4 3 [7, 7]⟩

/-- **C10**: `qat_active(epoch)` is true exactly when the wrapper is enabled
and the recipe's quantization modifiers contain one whose start epoch is
strictly below `epoch + 1` — equivalently, the modifier list is nonempty and
its minimum start epoch is strictly below `epoch + 1`. -/
theorem claim_c10_qat_active {Model Optim Scaler Logger : Type}
    (model : Model) (recipe : Option String)
    (fromYaml : String → Manager Model Optim Scaler) (epoch : Int) :
    (SparseMLWrapper.build model recipe fromYaml :
        SparseMLWrapper Model Optim Scaler Logger).qat_active epoch = true ↔
      (truthyOpt recipe = true ∧
        ∃ m ∈ (fromYaml (recipe.getD "")).quantization_modifiers,
          m.start_epoch < (epoch : ℚ) + 1) := by
  by_cases h : truthyOpt recipe = true
  · simp only [SparseMLWrapper.qat_active, SparseMLWrapper.build, h, if_true]
    cases hq : (fromYaml (recipe.getD "")).quantization_modifiers with
    | nil => simp [hq, h]
    | cons m0 rest =>
      simp only [hq, h, decide_eq_true_eq, true_and]
      rw [pyMin_lt_iff]
      simp only [List.mem_cons, exists_eq_or_imp]
      constructor
      · rintro (h1 | ⟨b, hb, hlt⟩)
        · exact Or.inl h1
        · obtain ⟨a, ha, rfl⟩ := List.mem_map.mp hb
          exact Or.inr ⟨a, ha, hlt⟩
      · rintro (h1 | ⟨a, ha, hlt⟩)
        · exact Or.inl h1
        · exact Or.inr ⟨a.start_epoch, List.mem_map.mpr ⟨a, ha, rfl⟩, hlt⟩
  · have h' : truthyOpt recipe = false := by
      cases hx : truthyOpt recipe
      · rfl
      · exact absurd hx h
    simp [SparseMLWrapper.qat_active, SparseMLWrapper.build, h']

end Yolact
